import Mathlib

/-!
Verification of the vissper-oss audio-capture / streaming-transcription core.

The definitions below are a shallow embedding of the Rust sources:

* `src/audio/mod.rs`, `src/audio/resampler.rs`, `src/audio/types.rs` —
  the capture pipeline (mono downmix, resampling, chunking);
* `src/transcription/session.rs` — the transcript accumulator;
* `src/transcription/azure_connection.rs` — the Azure send/receive tasks,
  the rolling sent buffer, recovery of pending audio, and the PCM16 / base64
  wire encoding;
* `src/transcription/mod.rs` — the reconnecting connection loop.

i16 samples are modelled as `Int` (with explicit wrapping where the source
casts), byte values as `Nat` below 256, and the source's `f64` duration
arithmetic as exact rationals.  Concurrency is modelled by making each
task a pure function of the ordered sequence of events its `select!` /
`recv` loop observes.
-/

/-- Chunk size in samples (src/audio/resampler.rs: `CHUNK_SIZE`). -/
def CHUNK_SIZE : Nat := 1600

/-- Target sample rate for Azure OpenAI STT (src/audio/mod.rs). -/
def AZURE_SAMPLE_RATE : Nat := 16000

/-- Target sample rate for OpenAI STT (src/audio/mod.rs). -/
def OPENAI_SAMPLE_RATE : Nat := 24000

/-- Default target sample rate; src/audio/mod.rs defines it as the Azure rate. -/
def TARGET_SAMPLE_RATE : Nat := AZURE_SAMPLE_RATE

/-- Audio chunk (src/audio/types.rs: `AudioChunk`): PCM 16-bit signed samples
with the sample rate in Hz. -/
structure AudioChunk where
  samples : List Int
  sample_rate : Nat
deriving DecidableEq, Repr

/-- The samples of a chunk all fit in an i16. -/
def AudioChunk.wellFormed (c : AudioChunk) : Prop :=
  ∀ s ∈ c.samples, -32768 ≤ s ∧ s < 32768

/-- Rust's `as i16` cast on an integer: wrap modulo 2^16 into [-32768, 32768). -/
def wrapI16 (x : Int) : Int :=
  (x + 32768) % 65536 - 32768

/-- Mono downmix (src/audio/resampler.rs `process_samples`): average the
samples of each `channels`-sized frame with truncating i32 division, then
cast to i16.  With one channel the data is passed through unchanged
(`data.to_vec()`). -/
def downmixMono (channels : Nat) (data : List Int) : List Int :=
  if channels > 1 then
    (data.toChunks channels).map fun frame => wrapI16 (Int.tdiv frame.sum channels)
  else
    data

/-- Buffer-and-chunker state shared by the capture callback
(src/audio/resampler.rs): samples waiting to be resampled, and resampled
samples waiting to be cut into chunks. -/
structure ResampleState where
  inputBuffer : List Int
  outputBuffer : List Int
deriving DecidableEq, Repr

/-- One step of `send_chunks` / `process_direct`'s `while` loop, with the
buffer length as fuel: while at least `CHUNK_SIZE` samples are buffered,
drain exactly `CHUNK_SIZE` of them into an `AudioChunk` whose rate field is
the constant `TARGET_SAMPLE_RATE` (src/audio/resampler.rs lines 126-144;
the `try_send` failure path only drops a drained chunk, it never alters the
chunks' shape, so delivery is modelled as always succeeding). -/
def send_chunks_aux : Nat → List Int → List AudioChunk × List Int
  | 0, buf => ([], buf)
  | fuel + 1, buf =>
    if CHUNK_SIZE ≤ buf.length then
      let rest := send_chunks_aux fuel (buf.drop CHUNK_SIZE)
      (⟨buf.take CHUNK_SIZE, TARGET_SAMPLE_RATE⟩ :: rest.1, rest.2)
    else
      ([], buf)

/-- Emit complete chunks from the output buffer
(src/audio/resampler.rs: `send_chunks`). -/
def send_chunks (buf : List Int) : List AudioChunk × List Int :=
  send_chunks_aux buf.length buf

/-- The resampler-side inner `while` loop of `process_with_resampler`
(src/audio/resampler.rs lines 64-91), with fuel: while the input buffer
holds at least `input_chunk_size` samples, drain that many, run them through
the rate converter `resample` (the external rubato `SincFixedIn` DSP,
abstracted as an arbitrary sample-list function) and append the result to
the output buffer.  The source's `input_chunk_size` is always positive, so
the extra `0 < inSize` guard only rules out the division-free degenerate
case. -/
def drainInputBuffer (resample : List Int → List Int) (inSize : Nat) :
    Nat → List Int → List Int → List Int × List Int
  | 0, inBuf, outBuf => (inBuf, outBuf)
  | fuel + 1, inBuf, outBuf =>
    if 0 < inSize ∧ inSize ≤ inBuf.length then
      drainInputBuffer resample inSize fuel (inBuf.drop inSize)
        (outBuf ++ resample (inBuf.take inSize))
    else
      (inBuf, outBuf)

/-- Process one capture callback's samples (src/audio/resampler.rs:
`process_samples`): downmix to mono, then either the
`process_with_resampler` path (buffer, resample in `input_chunk_size`
blocks, chunk the output buffer) or the `process_direct` path (chunk
directly).  Returns the new buffer state and the chunks handed to the
queue. -/
def process_samples (resample : Option (List Int → List Int)) (inSize : Nat)
    (channels : Nat) (st : ResampleState) (data : List Int) :
    ResampleState × List AudioChunk :=
  let mono := downmixMono channels data
  match resample with
  | some f =>
    let inBuf := st.inputBuffer ++ mono
    let drained := drainInputBuffer f inSize inBuf.length inBuf st.outputBuffer
    let emitted := send_chunks drained.2
    (⟨drained.1, emitted.2⟩, emitted.1)
  | none =>
    let emitted := send_chunks (st.outputBuffer ++ mono)
    (⟨st.inputBuffer, emitted.2⟩, emitted.1)

/-- Feed a sequence of capture callbacks through `process_samples`,
collecting every emitted chunk in order. -/
def run_capture_pipeline (resample : Option (List Int → List Int))
    (inSize channels : Nat) : ResampleState → List (List Int) →
    ResampleState × List AudioChunk
  | st, [] => (st, [])
  | st, data :: frames =>
    let step := process_samples resample inSize channels st data
    let rest := run_capture_pipeline resample inSize channels step.1 frames
    (rest.1, step.2 ++ rest.2)

/-- Input block size chosen by `start_capture_with_sample_rate`
(src/audio/mod.rs lines 149-186): `ceil(CHUNK_SIZE * device_rate /
target_rate)` when resampling is needed, `CHUNK_SIZE` otherwise. -/
def input_chunk_size (deviceRate targetRate : Nat) : Nat :=
  if deviceRate = targetRate then CHUNK_SIZE
  else (CHUNK_SIZE * deviceRate + (targetRate - 1)) / targetRate

/-- Whether `start_capture_with_sample_rate` installs a resampler:
exactly when the negotiated device rate differs from the target rate
(src/audio/mod.rs line 150). -/
def uses_resampler (deviceRate targetRate : Nat) : Bool :=
  deviceRate ≠ targetRate

/-- Transcription session state (src/transcription/session.rs):
accumulated committed segments, the current partial transcript, and the
manual-stop flag. -/
structure TranscriptionSession where
  committed_segments : List String
  partial_transcript : Option String
  manually_stopped : Bool
deriving DecidableEq, Repr

/-- The `Default` instance of the Rust struct: everything empty. -/
def TranscriptionSession.initial : TranscriptionSession :=
  ⟨[], none, false⟩

/-- Full transcript text (src/transcription/session.rs `full_transcript`):
the committed segments joined by single spaces. -/
def TranscriptionSession.full_transcript (s : TranscriptionSession) : String :=
  String.intercalate " " s.committed_segments

/-- Rust's `s.trim().is_empty()`: every character of the string is
whitespace. -/
def blankString (s : String) : Bool :=
  s.data.all Char.isWhitespace

/-- Session update performed by the Azure receive task for a transcript
message (src/transcription/azure_connection.rs `update_azure_session_state`):
a final text is appended to the committed segments and clears the partial;
a partial text replaces the partial. -/
def update_azure_session_state (sess : TranscriptionSession) (is_final : Bool)
    (text : String) : TranscriptionSession :=
  if is_final then
    { sess with committed_segments := sess.committed_segments ++ [text],
                partial_transcript := none }
  else
    { sess with partial_transcript := some text }

/-- Promotion of the partial transcript on connection loss
(src/transcription/azure_connection.rs `preserve_azure_partial_text`): the
partial is always taken (cleared); it is pushed onto the committed segments
only when it has a non-whitespace character. -/
def preserve_azure_partial_text (sess : TranscriptionSession) : TranscriptionSession :=
  match sess.partial_transcript with
  | none => sess
  | some p =>
    if blankString p then
      { sess with partial_transcript := none }
    else
      { sess with partial_transcript := none,
                  committed_segments := sess.committed_segments ++ [p] }

/-- Transcript events broadcast to subscribers (src/transcription/mod.rs:
`TranscriptEvent`). -/
inductive TranscriptEvent where
  | partialTranscript (text : String)
  | committedTranscript (text : String)
  | errorEvent (message : String)
  | connectionLost
  | reconnecting (attempt : Nat)
  | reconnected
  | reconnectFailed
deriving DecidableEq, Repr

/-- Parse outcome of one Azure text frame, as the receive task sees it
after `serde_json::from_str` and the `error_message()` /
`to_transcript_text()` accessors: a provider error message, a transcript
delta or completion, some other recognised message, or a parse failure. -/
inductive AzureParsed where
  | errorMsg (text : String)
  | transcript (is_final : Bool) (text : String)
  | otherMsg
  | parseFail
deriving DecidableEq, Repr

/-- One inbound WebSocket item observed by the Azure receive task: a text
frame, a close frame, ping/pong, any other frame kind, or a transport read
error. -/
inductive WsMsg where
  | text (p : AzureParsed)
  | close
  | ping
  | pong
  | otherFrame
  | readErr
deriving DecidableEq, Repr

/-- Substring test, standing in for Rust's `str::contains`. -/
def containsSubstring (hay needle : String) : Bool :=
  decide (List.IsInfix needle.data hay.data)

/-- The benign "buffer too small … 0.00ms" Azure error swallowed by the
receive task (src/transcription/azure_connection.rs lines 121-134). -/
def isBenignAzureError (msg : String) : Bool :=
  containsSubstring msg "buffer too small" && containsSubstring msg "0.00ms"

/-- The Azure receive task loop (src/transcription/azure_connection.rs
`spawn_azure_receive_task`), as a pure function of the inbound message
sequence: returns the final session, the events emitted in order, and the
`connection_ok` flag.  `quota_exceeded` is the constant `false` in the
source, so the close path always emits `ConnectionLost`; the `should_stop`
flag is modelled as unset (the claims' scenarios involve no user stop). -/
def azure_receive_loop (sess : TranscriptionSession) :
    List WsMsg → TranscriptionSession × List TranscriptEvent × Bool
  | [] => (sess, [], true)
  | WsMsg.text (AzureParsed.errorMsg m) :: rest =>
    if isBenignAzureError m then
      azure_receive_loop sess rest
    else
      let r := azure_receive_loop sess rest
      (r.1, TranscriptEvent.errorEvent m :: r.2.1, r.2.2)
  | WsMsg.text (AzureParsed.transcript f t) :: rest =>
    let sess' := update_azure_session_state sess f t
    let ev := if f then TranscriptEvent.committedTranscript t
              else TranscriptEvent.partialTranscript t
    let r := azure_receive_loop sess' rest
    (r.1, ev :: r.2.1, r.2.2)
  | WsMsg.text AzureParsed.otherMsg :: rest => azure_receive_loop sess rest
  | WsMsg.text AzureParsed.parseFail :: rest => azure_receive_loop sess rest
  | WsMsg.close :: _ =>
    (preserve_azure_partial_text sess, [TranscriptEvent.connectionLost], false)
  | WsMsg.ping :: rest => azure_receive_loop sess rest
  | WsMsg.pong :: rest => azure_receive_loop sess rest
  | WsMsg.otherFrame :: rest => azure_receive_loop sess rest
  | WsMsg.readErr :: _ =>
    (preserve_azure_partial_text sess, [TranscriptEvent.connectionLost], false)

/-- Apply a sequence of (is_final, text) transcript messages to a session,
as the receive loop does through `update_azure_session_state`. -/
def apply_transcript_events (sess : TranscriptionSession)
    (evs : List (Bool × String)) : TranscriptionSession :=
  evs.foldl (fun s e => update_azure_session_state s e.1 e.2) sess

/-- The texts of the final (committed) messages of a sequence, in order. -/
def finalTexts (evs : List (Bool × String)) : List String :=
  (evs.filter fun e => e.1).map fun e => e.2

/-- Duration of one chunk in seconds (`samples.len() / sample_rate`,
src/transcription/azure_connection.rs line 381); the source's `f64`
arithmetic is modelled with exact rationals. -/
def chunk_duration (c : AudioChunk) : ℚ :=
  (c.samples.length : ℚ) / (c.sample_rate : ℚ)

/-- Total duration of a buffer of chunks in seconds. -/
def buffer_duration (buf : List AudioChunk) : ℚ :=
  (buf.map chunk_duration).sum

/-- Trim the rolling sent buffer (src/transcription/azure_connection.rs
`trim_azure_sent_buffer`): while the total duration exceeds `maxSecs` and
more than one chunk remains, pop the oldest chunk.  The list's head is the
oldest chunk, as in the source's `VecDeque` front. -/
def trim_azure_sent_buffer (maxSecs : ℚ) : List AudioChunk → List AudioChunk
  | [] => []
  | c :: rest =>
    if maxSecs < buffer_duration (c :: rest) ∧ rest ≠ [] then
      trim_azure_sent_buffer maxSecs rest
    else
      c :: rest

/-- Recover buffered chunks on connection loss
(src/transcription/azure_connection.rs `recover_azure_buffered_chunks`):
start from the sent buffer, extend with the failed pending chunks, then
push every chunk `try_recv` still finds in the queue, in order. -/
def recover_azure_buffered_chunks (sent_buffer pending_chunks : List AudioChunk)
    (queued : List AudioChunk) : List AudioChunk :=
  queued.foldl (fun acc c => acc ++ [c]) (sent_buffer ++ pending_chunks)

/-- Messages the Azure send task writes to the WebSocket sink, with audio
appends identified by their chunk (the wire form is the base64 encoding
modelled by `azureAudioWireEncode` below). -/
inductive WireMsg where
  | audioAppend (c : AudioChunk)
  | ping
  | commit
  | responseCreate
  | closeFrame
deriving DecidableEq, Repr

/-- One resolution of the send task's `select!`: the connection-lost signal,
a ping-interval tick (with the ping write's success), or a receive on the
internal audio queue — a chunk or the channel-closed end marker, together
with the `should_stop` value read right after the receive and the success
of the chunk's write. -/
inductive SendEvent where
  | connLost
  | pingTick (writeOk : Bool)
  | recv (item : Option AudioChunk) (stopFlag : Bool) (writeOk : Bool)
deriving DecidableEq, Repr

/-- Result of the Azure send task (src/transcription/azure_connection.rs
`AzureSendResult`), plus the ordered list of wire messages written. -/
structure AzureSendResult where
  pending_chunks : List AudioChunk
  stopped_by_user : Bool
  transmitted : List WireMsg
deriving DecidableEq, Repr

/-- Outcome of running the send task on a finite event sequence: either the
task returned, or the modelled events ran out while it was still waiting. -/
inductive SendOutcome where
  | finished (r : AzureSendResult)
  | blocked (pending sentBuf : List AudioChunk) (out : List WireMsg)
deriving DecidableEq, Repr

/-- The chunks still sitting in the internal queue, as `try_recv` would
drain them: the chunks of the remaining receive events. -/
def queuedChunks (evs : List SendEvent) : List AudioChunk :=
  evs.filterMap fun e =>
    match e with
    | SendEvent.recv (some c) _ _ => some c
    | _ => none

/-- The Azure send task loop (src/transcription/azure_connection.rs
`spawn_azure_send_task`), as a pure function of the sequence of `select!`
resolutions.  On the connection-lost signal, a failed ping or a failed
chunk write it breaks and recovers the resend set with
`recover_azure_buffered_chunks`; when `should_stop` is observed after a
receive it immediately sends commit and response.create and closes
(returning empty pending and `stopped_by_user`), discarding the received
item; when the queue ends (`recv none`) it does the same after having
forwarded every earlier chunk. -/
def azure_send_loop (pending sentBuf : List AudioChunk) (out : List WireMsg) :
    List SendEvent → SendOutcome
  | [] => SendOutcome.blocked pending sentBuf out
  | SendEvent.connLost :: rest =>
    SendOutcome.finished
      ⟨recover_azure_buffered_chunks sentBuf pending (queuedChunks rest),
        false, out⟩
  | SendEvent.pingTick true :: rest =>
    azure_send_loop pending sentBuf (out ++ [WireMsg.ping]) rest
  | SendEvent.pingTick false :: rest =>
    SendOutcome.finished
      ⟨recover_azure_buffered_chunks sentBuf pending (queuedChunks rest),
        false, out⟩
  | SendEvent.recv item stop writeOk :: rest =>
    if stop then
      SendOutcome.finished ⟨[], true,
        out ++ [WireMsg.commit, WireMsg.responseCreate, WireMsg.closeFrame]⟩
    else
      match item with
      | some c =>
        if writeOk then
          azure_send_loop pending
            (trim_azure_sent_buffer 30 (sentBuf ++ [c]))
            (out ++ [WireMsg.audioAppend c]) rest
        else
          SendOutcome.finished
            ⟨recover_azure_buffered_chunks sentBuf (pending ++ [c])
                (queuedChunks rest), false, out⟩
      | none =>
        SendOutcome.finished ⟨[], true,
          out ++ [WireMsg.commit, WireMsg.responseCreate, WireMsg.closeFrame]⟩

/-- Maximum number of reconnection attempts (src/transcription/mod.rs). -/
def MAX_RECONNECT_ATTEMPTS : Nat := 5

/-- Typed errors returned synchronously by `start_azure` / `start_openai`
(src/transcription/error.rs `TranscriptionError`): the error's message
string plays no role in the claims, so only the variant is modelled. -/
inductive TranscriptionError where
  | connectionError
  | connectionTimeout
deriving DecidableEq, Repr

/-- What one successfully connected session does before it ends, as the
connection loop observes it: whether session init and the resend of pending
chunks succeeded, the events the receive task emitted, and the three
termination flags the loop inspects afterwards (`stopped_by_user`,
`quota_exceeded`, `connection_ok`). -/
structure SessionOutcome where
  initOk : Bool
  resendOk : Bool
  events : List TranscriptEvent
  sendStopped : Bool
  recvQuota : Bool
  recvConnectionOk : Bool
deriving DecidableEq, Repr

/-- Outcome of one connection attempt: the request build failed, the
connect call failed, the connect timed out, or the connection was
established and ran as a `SessionOutcome`. -/
inductive ConnAttemptOutcome where
  | buildErr
  | connErr
  | timeoutErr
  | success (s : SessionOutcome)
deriving DecidableEq, Repr

/-- Whether a connection attempt failed before being established. -/
def ConnAttemptOutcome.isFailure : ConnAttemptOutcome → Bool
  | ConnAttemptOutcome.success _ => false
  | _ => true

/-- How the connection loop ends: an error returned synchronously to the
caller (only possible on the first attempt), one of the four `break`
conditions, or the modelled attempt outcomes running out while the loop
was still going. -/
inductive ConnLoopResult where
  | errReturn (e : TranscriptionError)
  | stoppedByUser
  | quotaEnd
  | cleanEnd
  | reconnectFailedEnd
  | outOfOutcomes
deriving DecidableEq, Repr

/-- The main connection loop of `start_azure` (src/transcription/mod.rs
lines 190-349; `start_openai` is structurally identical), as a pure
function of the successive connection-attempt outcomes.  `isFirst` is
`is_first_connection`, `a` the current `reconnect_attempts` counter, and
the `should_stop` flag is modelled as unset (the claims' scenarios involve
no user stop at the loop head).  Returns the events emitted by the loop —
including each session's receive-task events — and how the loop ended. -/
def connLoop : List ConnAttemptOutcome → Bool → Nat →
    List TranscriptEvent × ConnLoopResult
  | [], true, _ => ([], ConnLoopResult.outOfOutcomes)
  | [], false, a =>
    if MAX_RECONNECT_ATTEMPTS < a + 1 then
      ([TranscriptEvent.reconnectFailed], ConnLoopResult.reconnectFailedEnd)
    else
      ([TranscriptEvent.reconnecting (a + 1)], ConnLoopResult.outOfOutcomes)
  | ConnAttemptOutcome.buildErr :: _, true, _ =>
    ([], ConnLoopResult.errReturn TranscriptionError.connectionError)
  | ConnAttemptOutcome.buildErr :: rest, false, a =>
    if MAX_RECONNECT_ATTEMPTS < a + 1 then
      ([TranscriptEvent.reconnectFailed], ConnLoopResult.reconnectFailedEnd)
    else
      let r := connLoop rest false (a + 1)
      (TranscriptEvent.reconnecting (a + 1) :: r.1, r.2)
  | ConnAttemptOutcome.connErr :: _, true, _ =>
    ([], ConnLoopResult.errReturn TranscriptionError.connectionError)
  | ConnAttemptOutcome.connErr :: rest, false, a =>
    if MAX_RECONNECT_ATTEMPTS < a + 1 then
      ([TranscriptEvent.reconnectFailed], ConnLoopResult.reconnectFailedEnd)
    else
      let r := connLoop rest false (a + 1)
      (TranscriptEvent.reconnecting (a + 1) ::
        TranscriptEvent.connectionLost :: r.1, r.2)
  | ConnAttemptOutcome.timeoutErr :: _, true, _ =>
    ([], ConnLoopResult.errReturn TranscriptionError.connectionTimeout)
  | ConnAttemptOutcome.timeoutErr :: rest, false, a =>
    if MAX_RECONNECT_ATTEMPTS < a + 1 then
      ([TranscriptEvent.reconnectFailed], ConnLoopResult.reconnectFailedEnd)
    else
      let r := connLoop rest false (a + 1)
      (TranscriptEvent.reconnecting (a + 1) ::
        TranscriptEvent.connectionLost :: r.1, r.2)
  | ConnAttemptOutcome.success s :: rest, true, a =>
    if s.initOk = false then
      let r := connLoop rest false a
      (TranscriptEvent.connectionLost :: r.1, r.2)
    else if s.resendOk = false then
      connLoop rest false a
    else if s.sendStopped then
      (s.events, ConnLoopResult.stoppedByUser)
    else if s.recvQuota then
      (s.events, ConnLoopResult.quotaEnd)
    else if s.recvConnectionOk then
      (s.events, ConnLoopResult.cleanEnd)
    else
      let r := connLoop rest false a
      (s.events ++ r.1, r.2)
  | ConnAttemptOutcome.success s :: rest, false, a =>
    if MAX_RECONNECT_ATTEMPTS < a + 1 then
      ([TranscriptEvent.reconnectFailed], ConnLoopResult.reconnectFailedEnd)
    else if s.initOk = false then
      let r := connLoop rest false 0
      (TranscriptEvent.reconnecting (a + 1) :: TranscriptEvent.reconnected ::
        TranscriptEvent.connectionLost :: r.1, r.2)
    else if s.resendOk = false then
      let r := connLoop rest false 0
      (TranscriptEvent.reconnecting (a + 1) :: TranscriptEvent.reconnected ::
        r.1, r.2)
    else if s.sendStopped then
      (TranscriptEvent.reconnecting (a + 1) :: TranscriptEvent.reconnected ::
        s.events, ConnLoopResult.stoppedByUser)
    else if s.recvQuota then
      (TranscriptEvent.reconnecting (a + 1) :: TranscriptEvent.reconnected ::
        s.events, ConnLoopResult.quotaEnd)
    else if s.recvConnectionOk then
      (TranscriptEvent.reconnecting (a + 1) :: TranscriptEvent.reconnected ::
        s.events, ConnLoopResult.cleanEnd)
    else
      let r := connLoop rest false 0
      (TranscriptEvent.reconnecting (a + 1) :: TranscriptEvent.reconnected ::
        (s.events ++ r.1), r.2)

/-- Whether an event is a `Reconnecting` notification. -/
def isReconnectingEv : TranscriptEvent → Bool
  | TranscriptEvent.reconnecting _ => true
  | _ => false

/-- The standard base64 alphabet
(`base64::engine::general_purpose::STANDARD`). -/
def b64Alphabet : List Char :=
  "ABCDEFGHIJKLMNOPQRSTUVWXYZabcdefghijklmnopqrstuvwxyz0123456789+/".toList

/-- The alphabet character for a 6-bit value. -/
def b64Char (n : Nat) : Char :=
  b64Alphabet.getD n '='

/-- The 6-bit value of an alphabet character, `none` for a non-alphabet
character (including the padding character). -/
def b64Index (c : Char) : Option Nat :=
  b64Alphabet.findIdx? fun x => x = c

/-- Base64-encode a byte list with the standard alphabet and `=` padding:
three bytes become four characters; a trailing one- or two-byte group is
padded. -/
def b64EncodeGroups : List Nat → List Char
  | [] => []
  | [b0] => [b64Char (b0 / 4), b64Char (b0 % 4 * 16), '=', '=']
  | [b0, b1] =>
    [b64Char (b0 / 4), b64Char (b0 % 4 * 16 + b1 / 16),
     b64Char (b1 % 16 * 4), '=']
  | b0 :: b1 :: b2 :: rest =>
    b64Char (b0 / 4) :: b64Char (b0 % 4 * 16 + b1 / 16) ::
      b64Char (b1 % 16 * 4 + b2 / 64) :: b64Char (b2 % 64) ::
      b64EncodeGroups rest

/-- Decode one four-character base64 group into one, two or three bytes
according to its `=` padding. -/
def b64DecodeQuad (c0 c1 c2 c3 : Char) : Option (List Nat) :=
  if c2 = '=' ∧ c3 = '=' then
    match b64Index c0, b64Index c1 with
    | some n0, some n1 => some [n0 * 4 + n1 / 16]
    | _, _ => none
  else if c3 = '=' then
    match b64Index c0, b64Index c1, b64Index c2 with
    | some n0, some n1, some n2 =>
      some [n0 * 4 + n1 / 16, n1 % 16 * 16 + n2 / 4]
    | _, _, _ => none
  else
    match b64Index c0, b64Index c1, b64Index c2, b64Index c3 with
    | some n0, some n1, some n2, some n3 =>
      some [n0 * 4 + n1 / 16, n1 % 16 * 16 + n2 / 4, n2 % 4 * 64 + n3]
    | _, _, _, _ => none

/-- Base64-decode a character list: four characters at a time, failing on a
length that is not a multiple of four or on a non-alphabet character in a
data position. -/
def b64DecodeGroups : List Char → Option (List Nat)
  | [] => some []
  | c0 :: c1 :: c2 :: c3 :: rest =>
    match b64DecodeQuad c0 c1 c2 c3, b64DecodeGroups rest with
    | some bs, some tail => some (bs ++ tail)
    | _, _ => none
  | _ => none

/-- Rust's `i16::to_le_bytes` on a sample: the two's-complement 16-bit value
split into little-endian bytes. -/
def sampleToLEBytes (s : Int) : List Nat :=
  [(s % 65536).toNat % 256, (s % 65536).toNat / 256]

/-- The PCM16 little-endian byte serialisation of a chunk's samples
(src/transcription/azure_connection.rs lines 335-339:
`samples.iter().flat_map(|&s| s.to_le_bytes())`). -/
def chunkLEBytes (c : AudioChunk) : List Nat :=
  c.samples.flatMap sampleToLEBytes

/-- Re-assemble consecutive little-endian byte pairs into i16 values. -/
def decodeLESamples : List Nat → List Int
  | b0 :: b1 :: rest =>
    (if b0 + 256 * b1 < 32768 then ((b0 + 256 * b1 : Nat) : Int)
     else ((b0 + 256 * b1 : Nat) : Int) - 65536) :: decodeLESamples rest
  | _ => []

/-- The wire form of an audio append message's payload
(src/transcription/azure_connection.rs `send_azure_audio_chunk`):
the base64 encoding of the samples' little-endian PCM16 bytes. -/
def azureAudioWireEncode (c : AudioChunk) : String :=
  String.mk (b64EncodeGroups (chunkLEBytes c))

/-- Decoding the wire payload back into samples: base64-decode, then
re-assemble little-endian byte pairs. -/
def azureAudioWireDecode (s : String) : Option (List Int) :=
  (b64DecodeGroups s.data).map decodeLESamples

theorem send_chunks_aux_shape (fuel : Nat) (buf : List Int) :
    ∀ c ∈ (send_chunks_aux fuel buf).1,
      c.samples.length = CHUNK_SIZE ∧ c.sample_rate = TARGET_SAMPLE_RATE := by
  induction fuel generalizing buf with
  | zero => simp [send_chunks_aux]
  | succ n ih =>
    intro c hc
    by_cases h : CHUNK_SIZE ≤ buf.length
    · simp only [send_chunks_aux, if_pos h, List.mem_cons] at hc
      rcases hc with rfl | hc
      · exact ⟨List.length_take_of_le h, rfl⟩
      · exact ih _ c hc
    · simp [send_chunks_aux, if_neg h] at hc

theorem send_chunks_shape (buf : List Int) :
    ∀ c ∈ (send_chunks buf).1,
      c.samples.length = CHUNK_SIZE ∧ c.sample_rate = TARGET_SAMPLE_RATE :=
  send_chunks_aux_shape buf.length buf

theorem process_samples_shape (resample : Option (List Int → List Int))
    (inSize channels : Nat) (st : ResampleState) (data : List Int) :
    ∀ c ∈ (process_samples resample inSize channels st data).2,
      c.samples.length = CHUNK_SIZE ∧ c.sample_rate = TARGET_SAMPLE_RATE := by
  cases resample with
  | some f => exact fun c hc => send_chunks_shape _ c hc
  | none => exact fun c hc => send_chunks_shape _ c hc

theorem run_capture_pipeline_shape (resample : Option (List Int → List Int))
    (inSize channels : Nat) (st : ResampleState) (frames : List (List Int)) :
    ∀ c ∈ (run_capture_pipeline resample inSize channels st frames).2,
      c.samples.length = CHUNK_SIZE ∧ c.sample_rate = TARGET_SAMPLE_RATE := by
  induction frames generalizing st with
  | nil => simp [run_capture_pipeline]
  | cons data frames ih =>
    intro c hc
    simp only [run_capture_pipeline, List.mem_append] at hc
    rcases hc with hc | hc
    · exact process_samples_shape _ _ _ _ _ c hc
    · exact ih _ c hc

theorem send_chunks_aux_nil (fuel : Nat) : send_chunks_aux fuel [] = ([], []) := by
  cases fuel with
  | zero => rfl
  | succ n => simp [send_chunks_aux, CHUNK_SIZE]

theorem send_chunks_single (buf : List Int) (h : buf.length = CHUNK_SIZE) :
    send_chunks buf = ([⟨buf, TARGET_SAMPLE_RATE⟩], []) := by
  obtain ⟨k, hk⟩ : ∃ k, CHUNK_SIZE = k + 1 := ⟨1599, rfl⟩
  have hdrop : buf.drop CHUNK_SIZE = [] := List.drop_eq_nil_of_le (le_of_eq h)
  have htake : buf.take CHUNK_SIZE = buf := List.take_of_length_le (le_of_eq h)
  unfold send_chunks
  rw [h, hk]
  simp only [send_chunks_aux, ← hk, h, le_refl, if_pos, hdrop, htake,
    send_chunks_aux_nil]

/-- C1: Every chunk leaving the Resampler+Chunker pipeline has exactly
`CHUNK_SIZE = 1600` samples, but its `sample_rate` field is the hard-coded
constant `TARGET_SAMPLE_RATE = 16000`, not the configured target rate: a
capture configured for the 24000 Hz OpenAI target (device already at
24000 Hz, so no resampler, block size 1600) that receives 1600 samples
emits one chunk whose `sample_rate` is 16000 ≠ 24000. -/
theorem chunk_sample_rate_hardcoded_bug :
    uses_resampler OPENAI_SAMPLE_RATE OPENAI_SAMPLE_RATE = false ∧
    input_chunk_size OPENAI_SAMPLE_RATE OPENAI_SAMPLE_RATE = CHUNK_SIZE ∧
    (run_capture_pipeline none CHUNK_SIZE 1 ⟨[], []⟩
        [List.replicate 1600 0]).2 =
      [⟨List.replicate 1600 0, 16000⟩] ∧
    (∀ c ∈ (run_capture_pipeline none CHUNK_SIZE 1 ⟨[], []⟩
        [List.replicate 1600 0]).2,
      c.samples.length = CHUNK_SIZE ∧ c.sample_rate = TARGET_SAMPLE_RATE) ∧
    TARGET_SAMPLE_RATE ≠ OPENAI_SAMPLE_RATE := by
  refine ⟨by simp [uses_resampler], by simp [input_chunk_size], ?_,
    run_capture_pipeline_shape _ _ _ _ _,
    by norm_num [TARGET_SAMPLE_RATE, AZURE_SAMPLE_RATE, OPENAI_SAMPLE_RATE]⟩
  have h := send_chunks_single (List.replicate 1600 0)
    (by rw [List.length_replicate, CHUNK_SIZE])
  simp only [run_capture_pipeline, process_samples, downmixMono, gt_iff_lt,
    List.nil_append, List.append_nil]
  rw [if_neg (lt_irrefl 1), h]
  rfl

theorem apply_transcript_events_committed (evs : List (Bool × String))
    (sess : TranscriptionSession) :
    (apply_transcript_events sess evs).committed_segments =
      sess.committed_segments ++ finalTexts evs ∧
    (apply_transcript_events sess evs).manually_stopped =
      sess.manually_stopped := by
  induction evs generalizing sess with
  | nil => simp [apply_transcript_events, finalTexts]
  | cons e rest ih =>
    obtain ⟨f, t⟩ := e
    have step : apply_transcript_events sess ((f, t) :: rest) =
        apply_transcript_events (update_azure_session_state sess f t) rest := rfl
    rcases ih (update_azure_session_state sess f t) with ⟨h1, h2⟩
    rw [step]
    cases f with
    | true =>
      refine ⟨?_, ?_⟩
      · rw [h1]; simp [update_azure_session_state, finalTexts]
      · rw [h2]; rfl
    | false =>
      refine ⟨?_, ?_⟩
      · rw [h1]; simp [update_azure_session_state, finalTexts]
      · rw [h2]; rfl

/-- C7: starting from the empty session, the sequence partial "hel",
partial "hello", final "hello" leaves exactly `committed_segments =
["hello"]` and no partial transcript; and after any sequence of transcript
messages that ends in a final one, the partial transcript is cleared, the
full transcript is the committed segments (the initial ones, then the final
texts in arrival order) joined by single spaces. -/
theorem session_partial_final_update_correct :
    apply_transcript_events TranscriptionSession.initial
        [(false, "hel"), (false, "hello"), (true, "hello")] =
      ⟨["hello"], none, false⟩ ∧
    (apply_transcript_events TranscriptionSession.initial
        [(false, "hel"), (false, "hello"), (true, "hello")]).full_transcript =
      "hello" ∧
    ∀ (evs : List (Bool × String)) (t : String) (sess : TranscriptionSession),
      (apply_transcript_events sess (evs ++ [(true, t)])).partial_transcript =
        none ∧
      (apply_transcript_events sess (evs ++ [(true, t)])).full_transcript =
        String.intercalate " "
          (apply_transcript_events sess (evs ++ [(true, t)])).committed_segments ∧
      (apply_transcript_events sess (evs ++ [(true, t)])).committed_segments =
        sess.committed_segments ++ finalTexts evs ++ [t] := by
  refine ⟨by decide, by decide, fun evs t sess => ?_⟩
  have happ : apply_transcript_events sess (evs ++ [(true, t)]) =
      update_azure_session_state (apply_transcript_events sess evs) true t := by
    simp [apply_transcript_events, List.foldl_append]
  refine ⟨?_, rfl, ?_⟩
  · rw [happ]; simp [update_azure_session_state]
  · rw [happ]
    have h := apply_transcript_events_committed evs sess
    simp [update_azure_session_state, h.1, finalTexts]

/-- C9: when the partial transcript is whitespace-only,
`preserve_azure_partial_text` clears it and leaves the committed segments
unchanged: the whitespace-only text is dropped, not preserved. -/
theorem preserve_partial_drops_blank (sess : TranscriptionSession) (p : String)
    (hp : sess.partial_transcript = some p) (hb : blankString p = true) :
    preserve_azure_partial_text sess = { sess with partial_transcript := none } ∧
    (preserve_azure_partial_text sess).committed_segments =
      sess.committed_segments ∧
    (preserve_azure_partial_text sess).partial_transcript = none := by
  simp [preserve_azure_partial_text, hp, hb]

/-- Witness for `preserve_partial_drops_blank` at a concrete session whose
partial transcript is a single space. -/
theorem preserve_partial_drops_blank_witness :
    blankString " " = true ∧
    preserve_azure_partial_text ⟨["a"], some " ", false⟩ = ⟨["a"], none, false⟩ :=
  ⟨by decide, (preserve_partial_drops_blank ⟨["a"], some " ", false⟩ " " rfl
    (by decide)).1⟩

theorem preserve_partial_clears (sess : TranscriptionSession) :
    (preserve_azure_partial_text sess).partial_transcript = none := by
  unfold preserve_azure_partial_text
  cases h : sess.partial_transcript with
  | none => exact h
  | some p => by_cases hb : blankString p <;> simp [hb]

theorem getLast?_cons_of_mem {α : Type} (a x : α) (l : List α) (h : x ∈ l) :
    (a :: l).getLast? = l.getLast? := by
  cases l with
  | nil => cases h
  | cons b t => exact List.getLast?_cons_cons

theorem preserve_partial_commits (sess : TranscriptionSession) (p : String)
    (hp : sess.partial_transcript = some p) (hb : blankString p = false) :
    (preserve_azure_partial_text sess).committed_segments =
      sess.committed_segments ++ [p] := by
  simp [preserve_azure_partial_text, hp, hb]

/-- C5 counterexample: with a whitespace-only partial transcript (a single
space) a server-initiated close emits `ConnectionLost` without moving the
partial into the committed segments — it is dropped instead. -/
theorem connection_lost_blank_partial_not_moved :
    (azure_receive_loop ⟨[], some " ", false⟩ [WsMsg.close]).2.1 =
      [TranscriptEvent.connectionLost] ∧
    (azure_receive_loop ⟨[], some " ", false⟩
        [WsMsg.close]).1.committed_segments = [] := by
  constructor <;> rfl

theorem connection_lost_decomposition (sess : TranscriptionSession)
    (msgs : List WsMsg)
    (h : TranscriptEvent.connectionLost ∈ (azure_receive_loop sess msgs).2.1) :
    ∃ pre m suffix, msgs = pre ++ m :: suffix ∧
      (m = WsMsg.close ∨ m = WsMsg.readErr) ∧
      azure_receive_loop sess msgs =
        (preserve_azure_partial_text (azure_receive_loop sess pre).1,
          (azure_receive_loop sess pre).2.1 ++
            [TranscriptEvent.connectionLost], false) := by
  induction msgs generalizing sess with
  | nil => cases h
  | cons m0 rest ih =>
    cases m0 with
    | text p =>
      cases p with
      | errorMsg e =>
        by_cases hb : isBenignAzureError e = true
        · have hmem : TranscriptEvent.connectionLost ∈
              (azure_receive_loop sess rest).2.1 := by
            simpa only [azure_receive_loop, if_pos hb] using h
          obtain ⟨pre, m, suffix, hdec, hm, heq⟩ := ih sess hmem
          refine ⟨WsMsg.text (AzureParsed.errorMsg e) :: pre, m, suffix,
            by simp [hdec], hm, ?_⟩
          simp only [azure_receive_loop, if_pos hb]
          exact heq
        · have hmem : TranscriptEvent.connectionLost ∈
              (azure_receive_loop sess rest).2.1 := by
            have hh := h
            simp only [azure_receive_loop, if_neg hb] at hh
            rcases List.mem_cons.mp hh with hc | hc
            · cases hc
            · exact hc
          obtain ⟨pre, m, suffix, hdec, hm, heq⟩ := ih sess hmem
          refine ⟨WsMsg.text (AzureParsed.errorMsg e) :: pre, m, suffix,
            by simp [hdec], hm, ?_⟩
          simp only [azure_receive_loop, if_neg hb]
          rw [heq]
          simp
      | transcript f t =>
        have hmem : TranscriptEvent.connectionLost ∈
            (azure_receive_loop (update_azure_session_state sess f t)
              rest).2.1 := by
          have hh := h
          simp only [azure_receive_loop] at hh
          rcases List.mem_cons.mp hh with hc | hc
          · cases f <;> simp at hc
          · exact hc
        obtain ⟨pre, m, suffix, hdec, hm, heq⟩ := ih _ hmem
        refine ⟨WsMsg.text (AzureParsed.transcript f t) :: pre, m, suffix,
          by simp [hdec], hm, ?_⟩
        simp only [azure_receive_loop]
        rw [heq]
        simp
      | otherMsg =>
        have hmem : TranscriptEvent.connectionLost ∈
            (azure_receive_loop sess rest).2.1 := by
          simpa only [azure_receive_loop] using h
        obtain ⟨pre, m, suffix, hdec, hm, heq⟩ := ih sess hmem
        exact ⟨WsMsg.text AzureParsed.otherMsg :: pre, m, suffix,
          by simp [hdec], hm, heq⟩
      | parseFail =>
        have hmem : TranscriptEvent.connectionLost ∈
            (azure_receive_loop sess rest).2.1 := by
          simpa only [azure_receive_loop] using h
        obtain ⟨pre, m, suffix, hdec, hm, heq⟩ := ih sess hmem
        exact ⟨WsMsg.text AzureParsed.parseFail :: pre, m, suffix,
          by simp [hdec], hm, heq⟩
    | close =>
      exact ⟨[], WsMsg.close, rest, rfl, Or.inl rfl, rfl⟩
    | ping =>
      have hmem : TranscriptEvent.connectionLost ∈
          (azure_receive_loop sess rest).2.1 := by
        simpa only [azure_receive_loop] using h
      obtain ⟨pre, m, suffix, hdec, hm, heq⟩ := ih sess hmem
      exact ⟨WsMsg.ping :: pre, m, suffix, by simp [hdec], hm, heq⟩
    | pong =>
      have hmem : TranscriptEvent.connectionLost ∈
          (azure_receive_loop sess rest).2.1 := by
        simpa only [azure_receive_loop] using h
      obtain ⟨pre, m, suffix, hdec, hm, heq⟩ := ih sess hmem
      exact ⟨WsMsg.pong :: pre, m, suffix, by simp [hdec], hm, heq⟩
    | otherFrame =>
      have hmem : TranscriptEvent.connectionLost ∈
          (azure_receive_loop sess rest).2.1 := by
        simpa only [azure_receive_loop] using h
      obtain ⟨pre, m, suffix, hdec, hm, heq⟩ := ih sess hmem
      exact ⟨WsMsg.otherFrame :: pre, m, suffix, by simp [hdec], hm, heq⟩
    | readErr =>
      exact ⟨[], WsMsg.readErr, rest, rfl, Or.inr rfl, rfl⟩

/-- C5 (amended): whenever the receive loop emits `ConnectionLost`, the
message list splits as a processed prefix, a terminating message (a server
close or a transport read error) and an unread suffix, and the loop's
result is exactly `preserve_azure_partial_text` applied to the session
reached after that prefix, with `ConnectionLost` appended as the last
event — so a partial transcript holding a non-whitespace character at the
moment of the loss is moved into the committed segments before the event
is emitted, a whitespace-only one is dropped, and the final partial
transcript is always cleared. -/
theorem connection_lost_after_preserve (sess : TranscriptionSession)
    (msgs : List WsMsg)
    (h : TranscriptEvent.connectionLost ∈ (azure_receive_loop sess msgs).2.1) :
    (azure_receive_loop sess msgs).1.partial_transcript = none ∧
    (azure_receive_loop sess msgs).2.1.getLast? =
      some TranscriptEvent.connectionLost ∧
    ∃ pre m suffix, msgs = pre ++ m :: suffix ∧
      (m = WsMsg.close ∨ m = WsMsg.readErr) ∧
      azure_receive_loop sess msgs =
        (preserve_azure_partial_text (azure_receive_loop sess pre).1,
          (azure_receive_loop sess pre).2.1 ++
            [TranscriptEvent.connectionLost], false) ∧
      ∀ p, (azure_receive_loop sess pre).1.partial_transcript = some p →
        blankString p = false →
        (azure_receive_loop sess msgs).1.committed_segments =
          (azure_receive_loop sess pre).1.committed_segments ++ [p] := by
  obtain ⟨pre, m, suffix, hdec, hm, heq⟩ :=
    connection_lost_decomposition sess msgs h
  have hfst : (azure_receive_loop sess msgs).1 =
      preserve_azure_partial_text (azure_receive_loop sess pre).1 := by
    rw [heq]
  have hsnd : (azure_receive_loop sess msgs).2.1 =
      (azure_receive_loop sess pre).2.1 ++ [TranscriptEvent.connectionLost] := by
    rw [heq]
  refine ⟨?_, ?_, pre, m, suffix, hdec, hm, heq, ?_⟩
  · rw [hfst]
    exact preserve_partial_clears _
  · rw [hsnd]
    exact List.getLast?_concat _
  · intro p hp hb
    rw [hfst]
    exact preserve_partial_commits _ p hp hb

/-- Witness for `connection_lost_after_preserve`: a session whose partial
transcript is the non-blank "hello" hit by a server close; the first
conjunct checks concretely that "hello" did end up in the committed
segments. -/
theorem connection_lost_after_preserve_witness :
    (azure_receive_loop ⟨[], some "hello", false⟩
        [WsMsg.close]).1.committed_segments = ["hello"] ∧
    ((azure_receive_loop ⟨[], some "hello", false⟩
        [WsMsg.close]).1.partial_transcript = none ∧
      (azure_receive_loop ⟨[], some "hello", false⟩
          [WsMsg.close]).2.1.getLast? = some TranscriptEvent.connectionLost ∧
      ∃ pre m suffix, [WsMsg.close] = pre ++ m :: suffix ∧
        (m = WsMsg.close ∨ m = WsMsg.readErr) ∧
        azure_receive_loop ⟨[], some "hello", false⟩ [WsMsg.close] =
          (preserve_azure_partial_text
              (azure_receive_loop ⟨[], some "hello", false⟩ pre).1,
            (azure_receive_loop ⟨[], some "hello", false⟩ pre).2.1 ++
              [TranscriptEvent.connectionLost], false) ∧
        ∀ p, (azure_receive_loop ⟨[], some "hello", false⟩
              pre).1.partial_transcript = some p →
          blankString p = false →
          (azure_receive_loop ⟨[], some "hello", false⟩
              [WsMsg.close]).1.committed_segments =
            (azure_receive_loop ⟨[], some "hello", false⟩
              pre).1.committed_segments ++ [p]) :=
  ⟨by decide,
   connection_lost_after_preserve ⟨[], some "hello", false⟩ [WsMsg.close]
     (by decide)⟩

/-- C4: the recovered resend set is exactly the sent-buffer chunks, then the
failed chunks, then the queued chunks, in their original order; in
particular its size is the sum of the three parts' sizes (5 sent + 0 failed
+ 3 queued = 8), shown on concrete one-sample chunks numbered 0..7. -/
theorem recover_resend_set_order :
    (∀ sent pending queued : List AudioChunk,
      recover_azure_buffered_chunks sent pending queued =
        sent ++ pending ++ queued ∧
      (recover_azure_buffered_chunks sent pending queued).length =
        sent.length + pending.length + queued.length) ∧
    recover_azure_buffered_chunks
        ((List.range 5).map fun n => ⟨[(n : Int)], 16000⟩) []
        ((List.range 3).map fun n => ⟨[(n : Int) + 5], 16000⟩) =
      (List.range 8).map (fun n => ⟨[(n : Int)], 16000⟩) := by
  have key : ∀ (queued acc : List AudioChunk),
      queued.foldl (fun acc c => acc ++ [c]) acc = acc ++ queued := by
    intro queued
    induction queued with
    | nil => intro acc; simp
    | cons c rest ih => intro acc; simp [ih]
  constructor
  · intro sent pending queued
    refine ⟨key queued (sent ++ pending), ?_⟩
    rw [recover_azure_buffered_chunks, key queued (sent ++ pending)]
    simp [Nat.add_assoc]
  · rw [recover_azure_buffered_chunks, key]
    decide

theorem trim_buffer_invariant_aux (buf : List AudioChunk) (hne : buf ≠ []) :
    trim_azure_sent_buffer 30 buf ≠ [] ∧
    (buffer_duration (trim_azure_sent_buffer 30 buf) ≤ 30 ∨
      (trim_azure_sent_buffer 30 buf).length = 1) ∧
    ∃ n, trim_azure_sent_buffer 30 buf = buf.drop n := by
  induction buf with
  | nil => exact absurd rfl hne
  | cons c rest ih =>
    by_cases hcond : 30 < buffer_duration (c :: rest) ∧ rest ≠ []
    · have hstep : trim_azure_sent_buffer 30 (c :: rest) =
          trim_azure_sent_buffer 30 rest := by
        rw [trim_azure_sent_buffer, if_pos hcond]
      obtain ⟨h1, h2, n, h3⟩ := ih hcond.2
      exact ⟨hstep ▸ h1, hstep ▸ h2, n + 1, by rw [hstep, List.drop_succ_cons, h3]⟩
    · have hstep : trim_azure_sent_buffer 30 (c :: rest) = c :: rest := by
        rw [trim_azure_sent_buffer, if_neg hcond]
      refine ⟨by simp [hstep], ?_, 0, by simp [hstep]⟩
      rw [hstep]
      by_cases hr : rest = []
      · subst hr; right; rfl
      · left
        rcases not_and_or.mp hcond with hd | hd
        · exact le_of_not_lt hd
        · exact absurd hr hd

/-- C10: after pushing a newly sent chunk and trimming
(`sent_buffer.push_back(chunk); trim_azure_sent_buffer(...)`), the rolling
sent buffer is non-empty and either its total duration is at most 30
seconds or it holds exactly one chunk; and trimming only ever removes a
prefix (the oldest chunks), leaving a suffix of the pushed buffer. -/
theorem sent_buffer_trim_invariant (sentBuf : List AudioChunk) (c : AudioChunk) :
    trim_azure_sent_buffer 30 (sentBuf ++ [c]) ≠ [] ∧
    (buffer_duration (trim_azure_sent_buffer 30 (sentBuf ++ [c])) ≤ 30 ∨
      (trim_azure_sent_buffer 30 (sentBuf ++ [c])).length = 1) ∧
    ∃ n, trim_azure_sent_buffer 30 (sentBuf ++ [c]) = (sentBuf ++ [c]).drop n :=
  trim_buffer_invariant_aux (sentBuf ++ [c]) (by simp)

theorem connLoop_budget_break (outs : List ConnAttemptOutcome) (a : Nat)
    (h : 5 ≤ a) :
    connLoop outs false a =
      ([TranscriptEvent.reconnectFailed], ConnLoopResult.reconnectFailedEnd) := by
  have hc : MAX_RECONNECT_ATTEMPTS < a + 1 := by
    simp only [MAX_RECONNECT_ATTEMPTS]; omega
  cases outs with
  | nil => simp only [connLoop]; rw [if_pos hc]
  | cons o rest => cases o <;> (simp only [connLoop]; rw [if_pos hc])

theorem connLoop_false_buildErr (rest : List ConnAttemptOutcome) (a : Nat)
    (h : a < 5) :
    connLoop (ConnAttemptOutcome.buildErr :: rest) false a =
      (TranscriptEvent.reconnecting (a + 1) :: (connLoop rest false (a + 1)).1,
        (connLoop rest false (a + 1)).2) := by
  have hc : ¬(MAX_RECONNECT_ATTEMPTS < a + 1) := by
    simp only [MAX_RECONNECT_ATTEMPTS]; omega
  simp only [connLoop]
  rw [if_neg hc]

theorem connLoop_false_connErr (rest : List ConnAttemptOutcome) (a : Nat)
    (h : a < 5) :
    connLoop (ConnAttemptOutcome.connErr :: rest) false a =
      (TranscriptEvent.reconnecting (a + 1) :: TranscriptEvent.connectionLost ::
        (connLoop rest false (a + 1)).1, (connLoop rest false (a + 1)).2) := by
  have hc : ¬(MAX_RECONNECT_ATTEMPTS < a + 1) := by
    simp only [MAX_RECONNECT_ATTEMPTS]; omega
  simp only [connLoop]
  rw [if_neg hc]

theorem connLoop_false_timeoutErr (rest : List ConnAttemptOutcome) (a : Nat)
    (h : a < 5) :
    connLoop (ConnAttemptOutcome.timeoutErr :: rest) false a =
      (TranscriptEvent.reconnecting (a + 1) :: TranscriptEvent.connectionLost ::
        (connLoop rest false (a + 1)).1, (connLoop rest false (a + 1)).2) := by
  have hc : ¬(MAX_RECONNECT_ATTEMPTS < a + 1) := by
    simp only [MAX_RECONNECT_ATTEMPTS]; omega
  simp only [connLoop]
  rw [if_neg hc]

theorem getLast?_cons_of_ne_nil {α : Type} (a : α) (l : List α) (h : l ≠ []) :
    (a :: l).getLast? = l.getLast? := by
  cases l with
  | nil => exact absurd rfl h
  | cons b t => exact List.getLast?_cons_cons

theorem connLoop_all_fail (outs : List ConnAttemptOutcome) :
    ∀ a : Nat, (∀ o ∈ outs, o.isFailure = true) → 5 ≤ a + outs.length →
    a ≤ 5 →
    (connLoop outs false a).1.filter isReconnectingEv =
      (List.range' (a + 1) (5 - a)).map TranscriptEvent.reconnecting ∧
    (connLoop outs false a).1.count TranscriptEvent.reconnectFailed = 1 ∧
    (connLoop outs false a).1.getLast? = some TranscriptEvent.reconnectFailed ∧
    (connLoop outs false a).2 = ConnLoopResult.reconnectFailedEnd := by
  induction outs with
  | nil =>
    intro a hfail hlen hle
    have ha : a = 5 := by simp at hlen; omega
    subst ha
    rw [connLoop_budget_break [] 5 (le_refl 5)]
    refine ⟨by simp [isReconnectingEv], by simp, rfl, rfl⟩
  | cons o rest ih =>
    intro a hfail hlen hle
    rcases eq_or_lt_of_le hle with ha | ha5
    · subst ha
      rw [connLoop_budget_break (o :: rest) 5 (le_refl 5)]
      refine ⟨by simp [isReconnectingEv], by simp, rfl, rfl⟩
    · have hfailrest : ∀ o' ∈ rest, o'.isFailure = true := fun o' ho' =>
        hfail o' (List.mem_cons_of_mem _ ho')
      have hlen' : 5 ≤ (a + 1) + rest.length := by
        simp only [List.length_cons] at hlen; omega
      obtain ⟨ih1, ih2, ih3, ih4⟩ := ih (a + 1) hfailrest hlen' ha5
      have hne : (connLoop rest false (a + 1)).1 ≠ [] := by
        intro hnil
        rw [hnil] at ih3
        cases ih3
      have hrange : List.range' (a + 1) (5 - a) =
          (a + 1) :: List.range' (a + 2) (5 - (a + 1)) := by
        have h5 : 5 - a = (5 - (a + 1)) + 1 := by omega
        rw [h5, List.range'_succ]
      cases o with
      | success s =>
        have := hfail _ (List.mem_cons_self _ _)
        simp [ConnAttemptOutcome.isFailure] at this
      | buildErr =>
        rw [connLoop_false_buildErr rest a ha5]
        refine ⟨?_, ?_, ?_, ih4⟩
        · rw [hrange]
          simp [List.filter_cons, isReconnectingEv, ih1]
        · simp [List.count_cons, ih2]
        · rw [getLast?_cons_of_ne_nil _ _ hne]
          exact ih3
      | connErr =>
        rw [connLoop_false_connErr rest a ha5]
        refine ⟨?_, ?_, ?_, ih4⟩
        · rw [hrange]
          simp [List.filter_cons, isReconnectingEv, ih1]
        · simp [List.count_cons, ih2]
        · rw [getLast?_cons_of_ne_nil, getLast?_cons_of_ne_nil _ _ hne]
          · exact ih3
          · simp [hne]
      | timeoutErr =>
        rw [connLoop_false_timeoutErr rest a ha5]
        refine ⟨?_, ?_, ?_, ih4⟩
        · rw [hrange]
          simp [List.filter_cons, isReconnectingEv, ih1]
        · simp [List.count_cons, ih2]
        · rw [getLast?_cons_of_ne_nil, getLast?_cons_of_ne_nil _ _ hne]
          · exact ih3
          · simp [hne]

/-- C3: after an initial successful connection whose streaming session ends
in a connection loss, if every subsequent reconnection attempt fails the
loop emits `Reconnecting 1` through `Reconnecting 5` in that order, exactly
one `ReconnectFailed` as its last event (in particular no `Reconnecting 6`),
and terminates by exhausting the reconnect budget. -/
theorem reconnect_budget_five_then_fail (outs : List ConnAttemptOutcome)
    (s0 : SessionOutcome)
    (hfail : ∀ o ∈ outs, o.isFailure = true)
    (hlen : 5 ≤ outs.length)
    (hinit : s0.initOk = true) (hres : s0.resendOk = true)
    (hstop : s0.sendStopped = false) (hquota : s0.recvQuota = false)
    (hok : s0.recvConnectionOk = false)
    (hev : s0.events = [TranscriptEvent.connectionLost]) :
    (connLoop (ConnAttemptOutcome.success s0 :: outs) true 0).1.filter
        isReconnectingEv =
      [TranscriptEvent.reconnecting 1, TranscriptEvent.reconnecting 2,
       TranscriptEvent.reconnecting 3, TranscriptEvent.reconnecting 4,
       TranscriptEvent.reconnecting 5] ∧
    (connLoop (ConnAttemptOutcome.success s0 :: outs) true 0).1.count
        TranscriptEvent.reconnectFailed = 1 ∧
    (connLoop (ConnAttemptOutcome.success s0 :: outs) true 0).1.getLast? =
      some TranscriptEvent.reconnectFailed ∧
    (connLoop (ConnAttemptOutcome.success s0 :: outs) true 0).2 =
      ConnLoopResult.reconnectFailedEnd := by
  obtain ⟨ih1, ih2, ih3, ih4⟩ :=
    connLoop_all_fail outs 0 hfail (by omega) (by omega)
  have hne : (connLoop outs false 0).1 ≠ [] := by
    intro hnil
    rw [hnil] at ih3
    cases ih3
  have hstep : connLoop (ConnAttemptOutcome.success s0 :: outs) true 0 =
      (TranscriptEvent.connectionLost :: (connLoop outs false 0).1,
        (connLoop outs false 0).2) := by
    simp [connLoop, hinit, hres, hstop, hquota, hok, hev]
  rw [hstep]
  refine ⟨?_, ?_, ?_, ih4⟩
  · rw [List.filter_cons_of_neg (by simp [isReconnectingEv])]
    rw [ih1]
    rfl
  · simp [List.count_cons, ih2]
  · rw [getLast?_cons_of_ne_nil _ _ hne]
    exact ih3

/-- Witness for `reconnect_budget_five_then_fail`: an initial successful
session ending in connection loss followed by five failed reconnection
attempts. -/
theorem reconnect_budget_five_then_fail_witness :
    (connLoop (ConnAttemptOutcome.success
        ⟨true, true, [TranscriptEvent.connectionLost], false, false, false⟩ ::
        List.replicate 5 ConnAttemptOutcome.connErr) true 0).1.filter
        isReconnectingEv =
      [TranscriptEvent.reconnecting 1, TranscriptEvent.reconnecting 2,
       TranscriptEvent.reconnecting 3, TranscriptEvent.reconnecting 4,
       TranscriptEvent.reconnecting 5] ∧
    (connLoop (ConnAttemptOutcome.success
        ⟨true, true, [TranscriptEvent.connectionLost], false, false, false⟩ ::
        List.replicate 5 ConnAttemptOutcome.connErr) true 0).1.count
        TranscriptEvent.reconnectFailed = 1 ∧
    (connLoop (ConnAttemptOutcome.success
        ⟨true, true, [TranscriptEvent.connectionLost], false, false, false⟩ ::
        List.replicate 5 ConnAttemptOutcome.connErr) true 0).1.getLast? =
      some TranscriptEvent.reconnectFailed ∧
    (connLoop (ConnAttemptOutcome.success
        ⟨true, true, [TranscriptEvent.connectionLost], false, false, false⟩ ::
        List.replicate 5 ConnAttemptOutcome.connErr) true 0).2 =
      ConnLoopResult.reconnectFailedEnd :=
  reconnect_budget_five_then_fail (List.replicate 5 ConnAttemptOutcome.connErr)
    ⟨true, true, [TranscriptEvent.connectionLost], false, false, false⟩
    (by decide) (by decide) rfl rfl rfl rfl rfl rfl

/-- C6 counterexample: a request-build failure on a reconnection (non-first)
attempt emits no `ConnectionLost` at all — only the `Reconnecting`
notifications — and returns no error, contradicting the claim that every
failure kind emits `ConnectionLost` on subsequent attempts. -/
theorem build_error_reconnect_no_connection_lost :
    (connLoop [ConnAttemptOutcome.buildErr] false 0).1 =
      [TranscriptEvent.reconnecting 1, TranscriptEvent.reconnecting 2] ∧
    (connLoop [ConnAttemptOutcome.buildErr] false 0).1.count
        TranscriptEvent.connectionLost = 0 ∧
    (connLoop [ConnAttemptOutcome.buildErr] false 0).2 =
      ConnLoopResult.outOfOutcomes := by
  refine ⟨?_, ?_, ?_⟩ <;> decide

theorem connLoop_false_never_errReturn (outs : List ConnAttemptOutcome) :
    ∀ (a : Nat) (e : TranscriptionError),
      (connLoop outs false a).2 ≠ ConnLoopResult.errReturn e := by
  induction outs with
  | nil =>
    intro a e
    simp only [connLoop]
    split <;> simp
  | cons o rest ih =>
    intro a e
    by_cases h5 : 5 ≤ a
    · rw [connLoop_budget_break _ _ h5]
      simp
    · have h5' : a < 5 := by omega
      cases o with
      | buildErr =>
        rw [connLoop_false_buildErr _ _ h5']
        exact ih (a + 1) e
      | connErr =>
        rw [connLoop_false_connErr _ _ h5']
        exact ih (a + 1) e
      | timeoutErr =>
        rw [connLoop_false_timeoutErr _ _ h5']
        exact ih (a + 1) e
      | success s =>
        simp only [connLoop]
        rw [if_neg (by simp only [MAX_RECONNECT_ATTEMPTS]; omega)]
        split
        · exact ih 0 e
        · split
          · exact ih 0 e
          · split
            · simp
            · split
              · simp
              · split
                · simp
                · exact ih 0 e

/-- C6 (amended): a connection failure on the very first attempt makes the
loop return a typed error synchronously with no events emitted (a build
error or connect error yields `ConnectionError`, a timeout yields
`ConnectionTimeout`); once a first connection has been established the loop
never returns an error: a connect failure or timeout on a reconnection
attempt emits `Reconnecting` then `ConnectionLost` and re-enters the loop,
while a request-build failure emits only `Reconnecting` — no
`ConnectionLost` — and re-enters the loop. -/
theorem connection_failure_first_vs_reconnect :
    (∀ (outs : List ConnAttemptOutcome) (a : Nat),
      connLoop (ConnAttemptOutcome.buildErr :: outs) true a =
        ([], ConnLoopResult.errReturn TranscriptionError.connectionError) ∧
      connLoop (ConnAttemptOutcome.connErr :: outs) true a =
        ([], ConnLoopResult.errReturn TranscriptionError.connectionError) ∧
      connLoop (ConnAttemptOutcome.timeoutErr :: outs) true a =
        ([], ConnLoopResult.errReturn TranscriptionError.connectionTimeout)) ∧
    (∀ (outs : List ConnAttemptOutcome) (a : Nat), a < 5 →
      connLoop (ConnAttemptOutcome.connErr :: outs) false a =
        (TranscriptEvent.reconnecting (a + 1) ::
          TranscriptEvent.connectionLost :: (connLoop outs false (a + 1)).1,
          (connLoop outs false (a + 1)).2) ∧
      connLoop (ConnAttemptOutcome.timeoutErr :: outs) false a =
        (TranscriptEvent.reconnecting (a + 1) ::
          TranscriptEvent.connectionLost :: (connLoop outs false (a + 1)).1,
          (connLoop outs false (a + 1)).2) ∧
      connLoop (ConnAttemptOutcome.buildErr :: outs) false a =
        (TranscriptEvent.reconnecting (a + 1) ::
          (connLoop outs false (a + 1)).1, (connLoop outs false (a + 1)).2)) ∧
    (∀ (outs : List ConnAttemptOutcome) (a : Nat) (e : TranscriptionError),
      (connLoop outs false a).2 ≠ ConnLoopResult.errReturn e) :=
  ⟨fun _ _ => ⟨rfl, rfl, rfl⟩,
   fun outs a h => ⟨connLoop_false_connErr outs a h,
     connLoop_false_timeoutErr outs a h, connLoop_false_buildErr outs a h⟩,
   connLoop_false_never_errReturn⟩

/-- Witness for `connection_failure_first_vs_reconnect` at concrete inputs:
an empty continuation, attempt counter 0. -/
theorem connection_failure_first_vs_reconnect_witness :
    connLoop [ConnAttemptOutcome.timeoutErr] true 0 =
      ([], ConnLoopResult.errReturn TranscriptionError.connectionTimeout) ∧
    connLoop [ConnAttemptOutcome.buildErr] false 0 =
      (TranscriptEvent.reconnecting 1 :: (connLoop [] false 1).1,
        (connLoop [] false 1).2) ∧
    (connLoop [ConnAttemptOutcome.connErr] false 0).2 ≠
      ConnLoopResult.errReturn TranscriptionError.connectionError :=
  ⟨(connection_failure_first_vs_reconnect.1 [] 0).2.2,
   (connection_failure_first_vs_reconnect.2.1 [] 0 (by decide)).2.2,
   connection_failure_first_vs_reconnect.2.2 [ConnAttemptOutcome.connErr] 0
     TranscriptionError.connectionError⟩

theorem azure_send_queue_end_drains (chunks : List AudioChunk) :
    ∀ (pending sentBuf : List AudioChunk) (out : List WireMsg),
      azure_send_loop pending sentBuf out
        (chunks.map (fun c => SendEvent.recv (some c) false true) ++
          [SendEvent.recv none false true]) =
      SendOutcome.finished ⟨[], true,
        out ++ chunks.map WireMsg.audioAppend ++
          [WireMsg.commit, WireMsg.responseCreate, WireMsg.closeFrame]⟩ := by
  induction chunks with
  | nil =>
    intro pending sentBuf out
    simp [azure_send_loop]
  | cons c rest ih =>
    intro pending sentBuf out
    simp only [List.map_cons, List.cons_append, azure_send_loop,
      Bool.false_eq_true, if_false, if_true, List.append_eq]
    rw [ih]
    simp

/-- C2 counterexample: the stop flag is observed while two chunks are still
queued — the send task sends commit, response.create and close without
transmitting either chunk, so the queued chunks are dropped, not drained. -/
theorem user_stop_drops_queued_chunks :
    azure_send_loop [] [] []
        [SendEvent.recv (some ⟨[0], 16000⟩) true true,
         SendEvent.recv (some ⟨[1], 16000⟩) true true] =
      SendOutcome.finished ⟨[], true,
        [WireMsg.commit, WireMsg.responseCreate, WireMsg.closeFrame]⟩ ∧
    WireMsg.audioAppend ⟨[0], 16000⟩ ∉
      [WireMsg.commit, WireMsg.responseCreate, WireMsg.closeFrame] ∧
    WireMsg.audioAppend ⟨[1], 16000⟩ ∉
      [WireMsg.commit, WireMsg.responseCreate, WireMsg.closeFrame] := by
  refine ⟨rfl, by decide, by decide⟩

/-- C2 (amended): when the capture queue ends (channel closed), the send
task first drains and transmits every queued chunk in order and then sends
the commit message, the response-trigger message and the close frame,
returning `stopped_by_user = true` with an empty pending set; when the stop
flag is observed after a receive, the send task sends commit,
response-trigger and close immediately, returning `stopped_by_user = true`
with an empty pending set but discarding the received chunk and anything
still queued.  In both cases the connection loop then terminates with
`stoppedByUser`, emitting no further event (in particular no
`ConnectionLost`). -/
theorem user_stop_send_task_behavior :
    (∀ (chunks pending sentBuf : List AudioChunk) (out : List WireMsg),
      azure_send_loop pending sentBuf out
        (chunks.map (fun c => SendEvent.recv (some c) false true) ++
          [SendEvent.recv none false true]) =
      SendOutcome.finished ⟨[], true,
        out ++ chunks.map WireMsg.audioAppend ++
          [WireMsg.commit, WireMsg.responseCreate, WireMsg.closeFrame]⟩) ∧
    (∀ (c : AudioChunk) (evs : List SendEvent)
        (pending sentBuf : List AudioChunk) (out : List WireMsg),
      azure_send_loop pending sentBuf out
        (SendEvent.recv (some c) true true :: evs) =
      SendOutcome.finished ⟨[], true,
        out ++ [WireMsg.commit, WireMsg.responseCreate, WireMsg.closeFrame]⟩) ∧
    (∀ s : SessionOutcome, s.initOk = true → s.resendOk = true →
      s.sendStopped = true →
      connLoop [ConnAttemptOutcome.success s] true 0 =
        (s.events, ConnLoopResult.stoppedByUser)) := by
  refine ⟨fun chunks => azure_send_queue_end_drains chunks, ?_, ?_⟩
  · intro c evs pending sentBuf out
    simp [azure_send_loop]
  · intro s h1 h2 h3
    simp [connLoop, h1, h2, h3]

/-- Witness for `user_stop_send_task_behavior`: one queued chunk then queue
end, a stop-flag receive, and a stopped session outcome. -/
theorem user_stop_send_task_behavior_witness :
    azure_send_loop [] [] []
        [SendEvent.recv (some ⟨[7], 16000⟩) false true,
         SendEvent.recv none false true] =
      SendOutcome.finished ⟨[], true,
        [WireMsg.audioAppend ⟨[7], 16000⟩, WireMsg.commit,
         WireMsg.responseCreate, WireMsg.closeFrame]⟩ ∧
    azure_send_loop [] [] [] [SendEvent.recv (some ⟨[7], 16000⟩) true true] =
      SendOutcome.finished ⟨[], true,
        [WireMsg.commit, WireMsg.responseCreate, WireMsg.closeFrame]⟩ ∧
    connLoop [ConnAttemptOutcome.success ⟨true, true, [], true, false, false⟩]
        true 0 = ([], ConnLoopResult.stoppedByUser) :=
  ⟨user_stop_send_task_behavior.1 [⟨[7], 16000⟩] [] [] [],
   user_stop_send_task_behavior.2.1 ⟨[7], 16000⟩ [] [] [] [],
   user_stop_send_task_behavior.2.2 ⟨true, true, [], true, false, false⟩
     rfl rfl rfl⟩

theorem b64Index_b64Char : ∀ n < 64, b64Index (b64Char n) = some n := by
  decide

theorem b64Char_ne_pad : ∀ n < 64, b64Char n ≠ '=' := by
  decide

theorem b64_roundtrip : ∀ bytes : List Nat, (∀ b ∈ bytes, b < 256) →
    b64DecodeGroups (b64EncodeGroups bytes) = some bytes
  | [], _ => rfl
  | [b0], h => by
    have hb0 : b0 < 256 := h b0 (by simp)
    have h0 : b0 / 4 < 64 := by omega
    have h1 : b0 % 4 * 16 < 64 := by omega
    simp [b64EncodeGroups, b64DecodeGroups, b64DecodeQuad,
      b64Index_b64Char _ h0, b64Index_b64Char _ h1]
    all_goals omega
  | [b0, b1], h => by
    have hb0 : b0 < 256 := h b0 (by simp)
    have hb1 : b1 < 256 := h b1 (by simp)
    have h0 : b0 / 4 < 64 := by omega
    have h1 : b0 % 4 * 16 + b1 / 16 < 64 := by omega
    have h2 : b1 % 16 * 4 < 64 := by omega
    have hne2 : b64Char (b1 % 16 * 4) ≠ '=' := b64Char_ne_pad _ h2
    simp [b64EncodeGroups, b64DecodeGroups, b64DecodeQuad, hne2,
      b64Index_b64Char _ h0, b64Index_b64Char _ h1, b64Index_b64Char _ h2]
    all_goals omega
  | b0 :: b1 :: b2 :: rest, h => by
    have hb0 : b0 < 256 := h b0 (by simp)
    have hb1 : b1 < 256 := h b1 (by simp)
    have hb2 : b2 < 256 := h b2 (by simp)
    have h0 : b0 / 4 < 64 := by omega
    have h1 : b0 % 4 * 16 + b1 / 16 < 64 := by omega
    have h2 : b1 % 16 * 4 + b2 / 64 < 64 := by omega
    have h3 : b2 % 64 < 64 := by omega
    have hne2 : b64Char (b1 % 16 * 4 + b2 / 64) ≠ '=' := b64Char_ne_pad _ h2
    have hne3 : b64Char (b2 % 64) ≠ '=' := b64Char_ne_pad _ h3
    have ih := b64_roundtrip rest (fun b hb => h b (by simp [hb]))
    cases rest with
    | nil =>
      simp [b64EncodeGroups, b64DecodeGroups, b64DecodeQuad, hne2, hne3,
        b64Index_b64Char _ h0, b64Index_b64Char _ h1, b64Index_b64Char _ h2,
        b64Index_b64Char _ h3]
      all_goals omega
    | cons r rs =>
      simp only [b64EncodeGroups, b64DecodeGroups]
      rw [ih]
      simp [b64DecodeQuad, hne2, hne3,
        b64Index_b64Char _ h0, b64Index_b64Char _ h1, b64Index_b64Char _ h2,
        b64Index_b64Char _ h3]
      all_goals omega

theorem chunkLEBytes_lt_256 (c : AudioChunk) : ∀ b ∈ chunkLEBytes c, b < 256 := by
  intro b hb
  simp only [chunkLEBytes, List.mem_flatMap] at hb
  obtain ⟨s, _, hmem⟩ := hb
  have hlt : (s % 65536).toNat < 65536 := by omega
  simp only [sampleToLEBytes, List.mem_cons, List.mem_singleton] at hmem
  rcases hmem with rfl | rfl | hfalse
  · omega
  · omega
  · cases hfalse

theorem decodeLESamples_roundtrip : ∀ samples : List Int,
    (∀ s ∈ samples, -32768 ≤ s ∧ s < 32768) →
    decodeLESamples (samples.flatMap sampleToLEBytes) = samples
  | [], _ => rfl
  | s :: rest, h => by
    have hs := h s (by simp)
    have ih := decodeLESamples_roundtrip rest (fun x hx => h x (by simp [hx]))
    have hflat : (s :: rest).flatMap sampleToLEBytes =
        (s % 65536).toNat % 256 :: (s % 65536).toNat / 256 ::
          rest.flatMap sampleToLEBytes := by
      simp [sampleToLEBytes]
    rw [hflat]
    simp only [decodeLESamples, List.cons.injEq]
    refine ⟨?_, ih⟩
    split <;> omega

/-- C8: for every audio chunk whose samples are genuine i16 values,
serialising the samples to little-endian byte pairs and base64-encoding
them with the standard alphabet, then base64-decoding and re-assembling
consecutive little-endian byte pairs, yields exactly the original sample
sequence. -/
theorem pcm16_base64_roundtrip (c : AudioChunk) (h : c.wellFormed) :
    azureAudioWireDecode (azureAudioWireEncode c) = some c.samples := by
  unfold azureAudioWireDecode azureAudioWireEncode
  show (b64DecodeGroups (b64EncodeGroups (chunkLEBytes c))).map decodeLESamples
    = some c.samples
  rw [b64_roundtrip (chunkLEBytes c) (chunkLEBytes_lt_256 c)]
  show some (decodeLESamples (chunkLEBytes c)) = some c.samples
  rw [show chunkLEBytes c = c.samples.flatMap sampleToLEBytes from rfl,
    decodeLESamples_roundtrip c.samples h]

/-- Witness for `pcm16_base64_roundtrip` on a concrete chunk holding the
samples 0, 1, -1, 32767 and -32768. -/
theorem pcm16_base64_roundtrip_witness :
    azureAudioWireDecode (azureAudioWireEncode
        ⟨[0, 1, -1, 32767, -32768], 16000⟩) =
      some [0, 1, -1, 32767, -32768] :=
  pcm16_base64_roundtrip ⟨[0, 1, -1, 32767, -32768], 16000⟩
    (by unfold AudioChunk.wellFormed; decide)
